import Mathlib

set_option maxHeartbeats 1000000

/-!
Verification of the m3ufilter playlist filter (`src/m3uparser.ts`).

The first section models the JavaScript string primitives used by the
source at the character-list level; the second section translates the
filter itself.  The parsing loop of `parseFileAsString` is modelled as a
structurally recursive function over the list of lines, returning
`Except` to capture the `throw` branch of the source.
-/

namespace M3U

/-! ### JavaScript string primitives -/

/-- The whitespace class trimmed by JavaScript `String.prototype.trim`. -/
def isJsSpace (c : Char) : Bool :=
  c == ' ' || c == '\t' || c == '\n' || c == '\r' || c == '\x0b' || c == '\x0c'

/-- Remove leading and trailing whitespace from a character list. -/
def trimChars (l : List Char) : List Char :=
  ((l.dropWhile isJsSpace).reverse.dropWhile isJsSpace).reverse

/-- JavaScript `s.trim()`. -/
def jsTrim (s : String) : String := ⟨trimChars s.data⟩

/-- JavaScript `s.startsWith(p)`. -/
def jsStartsWith (s p : String) : Bool := p.data.isPrefixOf s.data

/-- JavaScript `s.endsWith(p)`. -/
def jsEndsWith (s p : String) : Bool := p.data.isSuffixOf s.data

/-- JavaScript `s.toLowerCase()`. -/
def jsToLower (s : String) : String := ⟨s.data.map Char.toLower⟩

/-- Occurrence of `sub` as a contiguous sublist: at some position of `l`,
`sub` is a prefix of the remainder. -/
def infixChars (sub : List Char) : List Char → Bool
  | [] => sub.isEmpty
  | c :: cs => sub.isPrefixOf (c :: cs) || infixChars sub cs

/-- JavaScript `s.includes(sub)`: substring containment. -/
def jsIncludes (s sub : String) : Bool := infixChars sub.data s.data

/-- JavaScript `s.split("\n")` at the character level: split on every
newline character, never dropping empty fields. -/
def splitChars : List Char → List (List Char)
  | [] => [[]]
  | c :: cs =>
    if c = '\n' then [] :: splitChars cs
    else
      match splitChars cs with
      | [] => [[c]]
      | p :: ps => (c :: p) :: ps

/-- JavaScript `s.split("\n")`. -/
def jsSplit (s : String) : List String := (splitChars s.data).map fun l => ⟨l⟩

/-- JavaScript `lines.join("\n")`. -/
def joinNL : List String → String
  | [] => ""
  | [s] => s
  | s :: t :: rest => s ++ "\n" ++ joinNL (t :: rest)

/-- JavaScript `||` on nullable strings: `null` and `""` are falsy. -/
def jsFalsy : Option String → Bool
  | none => true
  | some s => s == ""

/-- JavaScript `a || b` for nullable strings. -/
def jsOr (a b : Option String) : Option String := if jsFalsy a then b else a

/-! ### Regex matching

The source matches the fixed patterns `attr="([^"]*)"`, `attr='([^']*)'`
and `attr=([^,\s]+)`.  A JavaScript regex match scans for the leftmost
position at which the pattern matches; for these patterns a match at a
position requires the literal `attr="` (resp. `attr='`, `attr=`) as a
prefix followed by a closing quote somewhere later (resp. at least one
character that is neither a comma nor whitespace), and the capture group
is the run of characters up to the closing quote (resp. the maximal run
of non-comma non-whitespace characters). -/

/-- Leftmost match of `pat⟨capture up to q⟩q` where `pat` itself ends in
the opening quote `q`: at each position, the pattern matches iff `pat`
is a prefix and the closing quote occurs in the remainder. -/
def scanQuoted (pat : List Char) (q : Char) : List Char → Option (List Char)
  | [] => none
  | c :: cs =>
    if pat.isPrefixOf (c :: cs) ∧ ((c :: cs).drop pat.length).contains q then
      some (((c :: cs).drop pat.length).takeWhile fun x => x ≠ q)
    else scanQuoted pat q cs

/-- Character class `[^,\s]` of the unquoted attribute pattern. -/
def isUnquotedChar (c : Char) : Bool := !(c == ',') && !(isJsSpace c)

/-- Leftmost match of `pat([^,\s]+)`: at each position the pattern
matches iff `pat` is a prefix and at least one `[^,\s]` character
follows; the capture is the maximal such run. -/
def scanUnquoted (pat : List Char) : List Char → Option (List Char)
  | [] => none
  | c :: cs =>
    if pat.isPrefixOf (c :: cs) ∧ ((c :: cs).drop pat.length).takeWhile isUnquotedChar ≠ [] then
      some (((c :: cs).drop pat.length).takeWhile isUnquotedChar)
    else scanUnquoted pat cs

/-- `extractParameterFromRegex(line, /attr="([^"]*)"/)`. -/
def extractDoubleQuoted (attr : String) (line : String) : Option String :=
  (scanQuoted (attr ++ "=\"").data '"' line.data).map fun l => ⟨l⟩

/-- `extractParameterFromRegex(line, /attr='([^']*)'/)`. -/
def extractSingleQuoted (attr : String) (line : String) : Option String :=
  (scanQuoted (attr ++ "='").data '\x27' line.data).map fun l => ⟨l⟩

/-- `extractParameterFromRegex(line, /attr=([^,\s]+)/)`. -/
def extractUnquoted (attr : String) (line : String) : Option String :=
  (scanUnquoted (attr ++ "=").data line.data).map fun l => ⟨l⟩

/-! ### The attribute extractor (`m3uparser.ts`) -/

/-- `extractChannelNameFromTitle`: the trimmed text after the last comma
of the line (`lastIndexOf(',')` + `substring`), or `null` if the line
has no comma. -/
def afterLastComma : List Char → Option (List Char)
  | [] => none
  | c :: cs =>
    match afterLastComma cs with
    | some r => some r
    | none => if c = ',' then some cs else none

/-- `extractChannelNameFromTitle(line)`. -/
def extractChannelNameFromTitle (line : String) : Option String :=
  (afterLastComma line.data).map fun l => jsTrim ⟨l⟩

/-- The `tvg-name` fallback chain of `shouldChannelBeExcluded`
(lines 94–97 of `m3uparser.ts`). -/
def channelNameOf (line : String) : Option String :=
  jsOr (jsOr (jsOr (extractDoubleQuoted "tvg-name" line)
                   (extractSingleQuoted "tvg-name" line))
             (extractUnquoted "tvg-name" line))
       (extractChannelNameFromTitle line)

/-- `extractGroupName(line)`: the `group-title` fallback chain ending in
the `"Unknown"` sentinel.  The JavaScript value is a string that is
never `null`; we keep the nullable type of the chain to model the
`currentGroup === null` check of the caller. -/
def extractGroupName (line : String) : Option String :=
  jsOr (jsOr (jsOr (extractDoubleQuoted "group-title" line)
                   (extractSingleQuoted "group-title" line))
             (extractUnquoted "group-title" line))
       (some "Unknown")

/-! ### The filter (`m3uparser.ts`) -/

/-- `FilterOptions` of `m3uparser.ts`; the optional TypeScript fields
become `Option`. -/
structure FilterOptions where
  groupsToInclude : Option (List String)
  channelsToExclude : Option (List String)
  fileContents : String

/-- `shouldAllGroupsBeReturned(options)`. -/
def shouldAllGroupsBeReturned (options : FilterOptions) : Bool :=
  match options.groupsToInclude with
  | none => true
  | some l => l.isEmpty

/-- `noChannelsToExclude(options)`: `options?.channelsToExclude?.length === 0`.
When `channelsToExclude` is absent the optional chain yields `undefined`,
and `undefined === 0` is `false`. -/
def noChannelsToExclude (options : FilterOptions) : Bool :=
  match options.channelsToExclude with
  | none => false
  | some l => l.isEmpty

/-- `shouldGroupBeIncluded(group, channelsToInclude)`. -/
def shouldGroupBeIncluded (group : String) (channelsToInclude : Option (List String)) : Bool :=
  match channelsToInclude with
  | none => true
  | some l =>
    if l.isEmpty then true
    else if group == "" then false
    else l.contains group

/-- `shouldChannelBeExcluded(line, excludedKeywords)`. -/
def shouldChannelBeExcluded (line : String) (excludedKeywords : Option (List String)) : Bool :=
  match excludedKeywords with
  | none => false
  | some kws =>
    if kws.isEmpty then false
    else
      match channelNameOf line with
      | none => false
      | some name =>
        if name == "" then false
        else kws.any fun k => jsIncludes (jsToLower name) (jsToLower k)

/-- One pass of the `for` loop of `parseFileAsString` over the remaining
lines.  The boolean argument is `currentGroupIncluded`; the `i++` that
skips a consumed URL line becomes dropping the head of the remaining
list.  The `throw` on a `null` group becomes `Except.error`. -/
def processLines (gti cte : Option (List String)) :
    List String → Bool → Except String (List String)
  | [], _ => .ok []
  | l :: rest, grpInc =>
    let line := jsTrim l
    if jsStartsWith line "#EXTM3U" then
      processLines gti cte rest grpInc
    else if jsStartsWith line "#EXTINF" then
      if shouldChannelBeExcluded line cte then
        match rest with
        | [] => .ok []
        | _ :: rest2 => processLines gti cte rest2 false
      else
        match extractGroupName line with
        | none => .error "Group null"
        | some currentGroup =>
          let inc := shouldGroupBeIncluded currentGroup gti
          if inc then
            match rest with
            | [] => .ok [line]
            | u :: rest2 => (processLines gti cte rest2 inc).map fun o => line :: jsTrim u :: o
          else
            match rest with
            | [] => .ok []
            | _ :: rest2 => processLines gti cte rest2 inc
    else
      if grpInc && line ≠ "" then
        (processLines gti cte rest grpInc).map fun o => line :: o
      else
        processLines gti cte rest grpInc

/-- `convertToStringWithLineBreak(lines)`. -/
def convertToStringWithLineBreak (lines : List String) : String :=
  let linesAsString := joinNL lines
  if jsEndsWith linesAsString "\n" then linesAsString
  else linesAsString ++ "\n"

/-- `parseFileAsString(options)`. -/
def parseFileAsString (options : FilterOptions) : Except String String :=
  if shouldAllGroupsBeReturned options && noChannelsToExclude options then
    .ok options.fileContents
  else
    (processLines options.groupsToInclude options.channelsToExclude
        (jsSplit options.fileContents) false).map
      fun out => convertToStringWithLineBreak ("#EXTM3U" :: out)

/-- `filterM3u(options)`. -/
def filterM3u (options : FilterOptions) : Except String String :=
  parseFileAsString options

/-! ### A pure view of the loop

`extractGroupName` never returns `none`, so the `throw` branch of the
loop is dead code; `processLinesP` is the same recursion with the dead
branch removed, and `processLines_eq_ok` proves the two agree. -/

/-- The loop of `parseFileAsString`, with the unreachable error branch
removed. -/
def processLinesP (gti cte : Option (List String)) : List String → Bool → List String
  | [], _ => []
  | l :: rest, grpInc =>
    let line := jsTrim l
    if jsStartsWith line "#EXTM3U" then
      processLinesP gti cte rest grpInc
    else if jsStartsWith line "#EXTINF" then
      if shouldChannelBeExcluded line cte then
        match rest with
        | [] => []
        | _ :: rest2 => processLinesP gti cte rest2 false
      else
        match extractGroupName line with
        | none => []
        | some currentGroup =>
          let inc := shouldGroupBeIncluded currentGroup gti
          if inc then
            match rest with
            | [] => [line]
            | u :: rest2 => line :: jsTrim u :: processLinesP gti cte rest2 inc
          else
            match rest with
            | [] => []
            | _ :: rest2 => processLinesP gti cte rest2 inc
    else
      if grpInc && line ≠ "" then
        line :: processLinesP gti cte rest grpInc
      else
        processLinesP gti cte rest grpInc

/-- The pure value produced by `parseFileAsString`. -/
def parseFileAsStringP (options : FilterOptions) : String :=
  if shouldAllGroupsBeReturned options && noChannelsToExclude options then
    options.fileContents
  else
    convertToStringWithLineBreak
      ("#EXTM3U" :: processLinesP options.groupsToInclude options.channelsToExclude
        (jsSplit options.fileContents) false)

/-! ### Branch-level unfolding lemmas for the loop -/

section Branches

variable (gti cte : Option (List String)) (l u : String) (rest : List String) (g : Bool)

theorem PLp_nil : processLinesP gti cte [] g = [] := rfl

theorem PLp_header (hh : jsStartsWith (jsTrim l) "#EXTM3U" = true) :
    processLinesP gti cte (l :: rest) g = processLinesP gti cte rest g := by
  cases rest <;> simp [processLinesP, hh]

theorem PLp_excl_nil (hh : jsStartsWith (jsTrim l) "#EXTM3U" = false)
    (hm : jsStartsWith (jsTrim l) "#EXTINF" = true)
    (hx : shouldChannelBeExcluded (jsTrim l) cte = true) :
    processLinesP gti cte [l] g = [] := by
  simp [processLinesP, hh, hm, hx]

theorem PLp_excl_cons (hh : jsStartsWith (jsTrim l) "#EXTM3U" = false)
    (hm : jsStartsWith (jsTrim l) "#EXTINF" = true)
    (hx : shouldChannelBeExcluded (jsTrim l) cte = true) :
    processLinesP gti cte (l :: u :: rest) g = processLinesP gti cte rest false := by
  simp [processLinesP, hh, hm, hx]

theorem PLp_kept_nil (hh : jsStartsWith (jsTrim l) "#EXTM3U" = false)
    (hm : jsStartsWith (jsTrim l) "#EXTINF" = true)
    (hx : shouldChannelBeExcluded (jsTrim l) cte = false)
    (grp : String) (hg : extractGroupName (jsTrim l) = some grp)
    (hi : shouldGroupBeIncluded grp gti = true) :
    processLinesP gti cte [l] g = [jsTrim l] := by
  simp [processLinesP, hh, hm, hx, hg, hi]

theorem PLp_kept_cons (hh : jsStartsWith (jsTrim l) "#EXTM3U" = false)
    (hm : jsStartsWith (jsTrim l) "#EXTINF" = true)
    (hx : shouldChannelBeExcluded (jsTrim l) cte = false)
    (grp : String) (hg : extractGroupName (jsTrim l) = some grp)
    (hi : shouldGroupBeIncluded grp gti = true) :
    processLinesP gti cte (l :: u :: rest) g =
      jsTrim l :: jsTrim u :: processLinesP gti cte rest true := by
  simp [processLinesP, hh, hm, hx, hg, hi]

theorem PLp_skip_nil (hh : jsStartsWith (jsTrim l) "#EXTM3U" = false)
    (hm : jsStartsWith (jsTrim l) "#EXTINF" = true)
    (hx : shouldChannelBeExcluded (jsTrim l) cte = false)
    (grp : String) (hg : extractGroupName (jsTrim l) = some grp)
    (hi : shouldGroupBeIncluded grp gti = false) :
    processLinesP gti cte [l] g = [] := by
  simp [processLinesP, hh, hm, hx, hg, hi]

theorem PLp_skip_cons (hh : jsStartsWith (jsTrim l) "#EXTM3U" = false)
    (hm : jsStartsWith (jsTrim l) "#EXTINF" = true)
    (hx : shouldChannelBeExcluded (jsTrim l) cte = false)
    (grp : String) (hg : extractGroupName (jsTrim l) = some grp)
    (hi : shouldGroupBeIncluded grp gti = false) :
    processLinesP gti cte (l :: u :: rest) g = processLinesP gti cte rest false := by
  simp [processLinesP, hh, hm, hx, hg, hi]

theorem PLp_stray_push (hh : jsStartsWith (jsTrim l) "#EXTM3U" = false)
    (hm : jsStartsWith (jsTrim l) "#EXTINF" = false)
    (hg : g = true) (hne : jsTrim l ≠ "") :
    processLinesP gti cte (l :: rest) g = jsTrim l :: processLinesP gti cte rest g := by
  subst hg
  cases rest <;> simp [processLinesP, hh, hm, hne]

theorem PLp_stray_skip (hh : jsStartsWith (jsTrim l) "#EXTM3U" = false)
    (hm : jsStartsWith (jsTrim l) "#EXTINF" = false)
    (hgn : g = false ∨ jsTrim l = "") :
    processLinesP gti cte (l :: rest) g = processLinesP gti cte rest g := by
  rcases hgn with hgn | hgn
  · subst hgn
    cases rest <;> simp [processLinesP, hh, hm]
  · rw [hgn] at hh hm
    cases rest <;> simp [processLinesP, hh, hm, hgn]

end Branches

/-- `jsOr` with a present right operand always produces a value. -/
theorem jsOr_some (a : Option String) (s : String) : ∃ t, jsOr a (some s) = some t := by
  unfold jsOr
  split
  · exact ⟨s, rfl⟩
  · rename_i h
    cases a with
    | none => simp [jsFalsy] at h
    | some t => exact ⟨t, rfl⟩

/-- The `group-title` chain always produces a value: the sentinel
`"Unknown"` closes the fallback chain. -/
theorem extractGroupName_isSome (line : String) : ∃ grp, extractGroupName line = some grp :=
  jsOr_some _ "Unknown"

theorem except_map_ok {α β ε : Type} (f : α → β) (x : α) :
    (Except.ok x : Except ε α).map f = .ok (f x) := rfl

/-- The loop never reaches the `throw` branch: it always returns the
value computed by the pure loop. -/
theorem processLines_eq_ok (gti cte : Option (List String)) (ls : List String) (g : Bool) :
    processLines gti cte ls g = .ok (processLinesP gti cte ls g) := by
  induction ls, g using processLines.induct gti cte with
  | case1 g => rfl
  | case2 l rest g line hh ih =>
    cases rest <;> simp [processLines, processLinesP, hh, ih]
  | case3 l g line hh hm hx =>
    simp [processLines, processLinesP, hh, hm, hx]
  | case4 l g line hh hm hx u rest2 ih =>
    simp [processLines, processLinesP, hh, hm, hx, ih]
  | case5 l rest g line hh hm hx hgn =>
    rcases extractGroupName_isSome line with ⟨grp, hg⟩
    rw [hg] at hgn
    exact absurd hgn (by simp)
  | case6 l g line hh hm hx grp hg inc hi =>
    have hi' : shouldGroupBeIncluded grp gti = true := hi
    simp [processLines, processLinesP, hh, hm, hx, hg, hi']
  | case7 l g line hh hm hx grp hg inc hi u rest2 ih =>
    have hi' : shouldGroupBeIncluded grp gti = true := hi
    have ih' : processLines gti cte rest2 true = .ok (processLinesP gti cte rest2 true) := by
      simpa [show (inc : Bool) = true from hi] using ih
    simp [processLines, processLinesP, hh, hm, hx, hg, hi', ih', except_map_ok]
  | case8 l g line hh hm hx grp hg inc hi =>
    have hi' : shouldGroupBeIncluded grp gti = false := by simpa using hi
    simp [processLines, processLinesP, hh, hm, hx, hg, hi']
  | case9 l g line hh hm hx grp hg inc hi u rest2 ih =>
    have hi' : shouldGroupBeIncluded grp gti = false := by simpa using hi
    have ih' : processLines gti cte rest2 false = .ok (processLinesP gti cte rest2 false) := by
      simpa [show (inc : Bool) = false from by simpa using hi] using ih
    simp [processLines, processLinesP, hh, hm, hx, hg, hi', ih', except_map_ok]
  | case10 l rest g line hh hm hc ih =>
    have hc' : g = true ∧ jsTrim l ≠ "" := by simpa using hc
    obtain ⟨h1, h2⟩ := hc'
    subst h1
    cases rest <;> simp [processLines, processLinesP, hh, hm, h2, ih, except_map_ok]
  | case11 l rest g line hh hm hc ih =>
    have hcp : ¬(g = true ∧ ¬jsTrim l = "") := by simpa using hc
    cases rest <;> simp [processLines, processLinesP, hh, hm, if_neg hcp, ih]

/-- `parseFileAsString` never throws. -/
theorem parseFileAsString_eq_ok (options : FilterOptions) :
    parseFileAsString options = .ok (parseFileAsStringP options) := by
  unfold parseFileAsString parseFileAsStringP
  split
  · rfl
  · rw [processLines_eq_ok]
    rfl

/-- `filterM3u` never throws. -/
theorem filterM3u_eq_ok (options : FilterOptions) :
    filterM3u options = .ok (parseFileAsStringP options) :=
  parseFileAsString_eq_ok options

/-! ### Facts about the string primitives -/

theorem dropWhile_dropWhile (p : Char → Bool) (l : List Char) :
    (l.dropWhile p).dropWhile p = l.dropWhile p := by
  induction l with
  | nil => rfl
  | cons c cs ih =>
    by_cases h : p c <;> simp [List.dropWhile_cons, h, ih]

theorem dropWhile_eq_self_of_head (p : Char → Bool) (l : List Char)
    (h : ∀ c, l.head? = some c → p c = false) : l.dropWhile p = l := by
  cases l with
  | nil => rfl
  | cons c cs => simp [List.dropWhile_cons, h c rfl]

/-- Trimming is idempotent. -/
theorem trimChars_idem (l : List Char) : trimChars (trimChars l) = trimChars l := by
  unfold trimChars
  set a := l.dropWhile isJsSpace with ha
  set X := a.reverse.dropWhile isJsSpace with hX
  have hb_drop : X.reverse.dropWhile isJsSpace = X.reverse := by
    apply dropWhile_eq_self_of_head
    intro c hc
    rcases List.dropWhile_suffix (l := a.reverse) isJsSpace with ⟨pre, hpre⟩
    have hpfx : X.reverse <+: a := by
      refine ⟨pre.reverse, ?_⟩
      have := congrArg List.reverse hpre
      simpa using this
    rcases hpfx with ⟨t, ht⟩
    have hhead : a.head? = some c := by
      rw [← ht, List.head?_append, hc]
      rfl
    have := List.head?_dropWhile_not isJsSpace l
    rw [← ha, hhead] at this
    exact this
  rw [hb_drop, List.reverse_reverse, hX, dropWhile_dropWhile]

/-- `jsTrim` is idempotent. -/
theorem jsTrim_idem (s : String) : jsTrim (jsTrim s) = jsTrim s := by
  unfold jsTrim
  exact congrArg String.mk (trimChars_idem s.data)

/-- Trimming only removes characters. -/
theorem mem_trimChars {c : Char} {l : List Char} (h : c ∈ trimChars l) : c ∈ l := by
  unfold trimChars at h
  rw [List.mem_reverse] at h
  have h2 := List.Sublist.mem h (List.dropWhile_sublist isJsSpace)
  rw [List.mem_reverse] at h2
  exact List.Sublist.mem h2 (List.dropWhile_sublist isJsSpace)

theorem mem_jsTrim {c : Char} {s : String} (h : c ∈ (jsTrim s).data) : c ∈ s.data :=
  mem_trimChars h

/-- A string with the `#EXTINF` marker as a prefix is nonempty. -/
theorem ne_empty_of_startsWith {s p : String} (hp : p ≠ "")
    (h : jsStartsWith s p = true) : s ≠ "" := by
  intro hs
  subst hs
  unfold jsStartsWith at h
  rw [ List.isPrefixOf_iff_prefix] at h
  have : p.data = [] := List.prefix_nil.mp h
  exact hp (congrArg String.mk this)

/-- `"#EXTINF"`-prefixed lines are not `"#EXTM3U"`-prefixed. -/
theorem not_header_of_meta {s : String} (h : jsStartsWith s "#EXTINF" = true) :
    jsStartsWith s "#EXTM3U" = false := by
  unfold jsStartsWith at h ⊢
  rw [ List.isPrefixOf_iff_prefix] at h
  rw [Bool.eq_false_iff]
  intro hcon
  rw [ List.isPrefixOf_iff_prefix] at hcon
  rw [List.prefix_iff_eq_take] at h hcon
  have hlen : ("#EXTINF".data).length = ("#EXTM3U".data).length := by decide
  have heq : ("#EXTINF".data) = "#EXTM3U".data := by
    rw [h, hcon, hlen]
  exact absurd heq (by decide)

/-! ### Facts about split and join -/

theorem splitChars_ne_nil (l : List Char) : splitChars l ≠ [] := by
  induction l with
  | nil => simp [splitChars]
  | cons c cs ih =>
    unfold splitChars
    split
    · simp
    · split
      · simp
      · simp

/-- The pieces of a split contain no newline. -/
theorem not_nl_mem_splitChars {l : List Char} {pc : List Char}
    (h : pc ∈ splitChars l) : '\n' ∉ pc := by
  induction l generalizing pc with
  | nil =>
    rw [show splitChars [] = [[]] from rfl] at h
    rcases List.mem_singleton.mp h with rfl
    simp
  | cons c cs ih =>
    unfold splitChars at h
    by_cases hc : c = '\n'
    · rw [if_pos hc] at h
      rcases List.mem_cons.mp h with rfl | h
      · simp
      · exact ih h
    · rw [if_neg hc] at h
      rcases hsp : splitChars cs with _ | ⟨p, ps⟩
      · exact absurd hsp (splitChars_ne_nil cs)
      · rw [hsp] at h
        rcases List.mem_cons.mp h with h | h
        · subst h
          intro hmem
          rcases List.mem_cons.mp hmem with h | h
          · exact hc h.symm
          · exact ih (by rw [hsp]; exact List.mem_cons_self p ps) h
        · exact ih (by rw [hsp]; exact List.mem_cons_of_mem p h)

/-- Splitting after a newline-free prefix. -/
theorem splitChars_append_cons (a : List Char) (m : List Char) (ha : '\n' ∉ a) :
    splitChars (a ++ '\n' :: m) = a :: splitChars m := by
  induction a with
  | nil => simp [splitChars]
  | cons c cs ih =>
    have hc : c ≠ '\n' := fun h => ha (h ▸ List.mem_cons_self c cs)
    have hcs : '\n' ∉ cs := fun h => ha (List.mem_cons_of_mem c h)
    rw [List.cons_append]
    simp only [splitChars]
    rw [if_neg hc, ih hcs]

/-- A newline-free list splits into itself. -/
theorem splitChars_eq_self (a : List Char) (ha : '\n' ∉ a) : splitChars a = [a] := by
  induction a with
  | nil => rfl
  | cons c cs ih =>
    have hc : c ≠ '\n' := fun h => ha (h ▸ List.mem_cons_self c cs)
    have hcs : '\n' ∉ cs := fun h => ha (List.mem_cons_of_mem c h)
    simp only [splitChars]
    rw [if_neg hc, ih hcs]

/-- Appending a final newline appends an empty piece. -/
theorem splitChars_append_nl (l : List Char) :
    splitChars (l ++ ['\n']) = splitChars l ++ [[]] := by
  induction l with
  | nil => rfl
  | cons c cs ih =>
    rw [List.cons_append]
    by_cases hc : c = '\n'
    · simp only [splitChars]
      rw [if_pos hc, if_pos hc, ih]
      rfl
    · simp only [splitChars]
      rw [if_neg hc, if_neg hc, ih]
      rcases hsp : splitChars cs with _ | ⟨p, ps⟩
      · exact absurd hsp (splitChars_ne_nil cs)
      · rfl

theorem joinNL_cons_cons (s t : String) (r : List String) :
    joinNL (s :: t :: r) = s ++ "\n" ++ joinNL (t :: r) := rfl

theorem joinNL_data_cons_cons (s t : String) (r : List String) :
    (joinNL (s :: t :: r)).data = s.data ++ '\n' :: (joinNL (t :: r)).data := by
  rw [joinNL_cons_cons, String.data_append, String.data_append,
    show ("\n" : String).data = ['\n'] from rfl]
  simp

/-- Splitting a join of newline-free pieces recovers the pieces. -/
theorem jsSplit_joinNL (ls : List String) (hne : ls ≠ [])
    (hfree : ∀ s ∈ ls, '\n' ∉ s.data) : jsSplit (joinNL ls) = ls := by
  induction ls with
  | nil => exact absurd rfl hne
  | cons s rest ih =>
    cases rest with
    | nil =>
      unfold jsSplit
      rw [show joinNL [s] = s from rfl, splitChars_eq_self s.data (hfree s (by simp))]
      rfl
    | cons t r =>
      unfold jsSplit
      rw [joinNL_data_cons_cons,
        splitChars_append_cons s.data _ (hfree s (by simp))]
      have ihr := ih (by simp) (fun x hx => hfree x (List.mem_cons_of_mem s hx))
      unfold jsSplit at ihr
      simp only [List.map_cons, ihr]

/-- Splitting after appending a trailing newline. -/
theorem jsSplit_append_nl (s : String) : jsSplit (s ++ "\n") = jsSplit s ++ [""] := by
  unfold jsSplit
  rw [String.data_append, show ("\n" : String).data = ['\n'] from rfl,
    splitChars_append_nl, List.map_append]
  rfl

/-! ### Facts about `jsEndsWith` -/

theorem isSuffixOf_singleton_iff (c : Char) (l : List Char) :
    [c].isSuffixOf l = true ↔ l.getLast? = some c := by
  unfold List.isSuffixOf
  rw [ List.isPrefixOf_iff_prefix, ← List.head?_reverse]
  show [c].reverse <+: l.reverse ↔ _
  cases hr : l.reverse with
  | nil => simp
  | cons d t => simp [List.cons_prefix_cons, eq_comm]

theorem jsEndsWith_nl_iff (s : String) :
    jsEndsWith s "\n" = true ↔ s.data.getLast? = some '\n' := by
  unfold jsEndsWith
  exact isSuffixOf_singleton_iff '\n' s.data

/-! ### Invariants of the loop output -/

/-- The first emitted line is never blank, and when the loop starts with
the group flag down it is a metadata line (stray lines need the flag
up, and a block always starts with its kept metadata line). -/
theorem PLp_head (gti cte : Option (List String)) (ls : List String) (g : Bool) :
    ∀ s, (processLinesP gti cte ls g).head? = some s →
      s ≠ "" ∧ (g = false → jsStartsWith s "#EXTINF" = true) := by
  induction ls, g using processLinesP.induct gti cte with
  | case1 g => intro s hs; simp [processLinesP] at hs
  | case2 l rest g line hh ih =>
    intro s hs
    rw [PLp_header gti cte l rest g hh] at hs
    exact ih s hs
  | case3 l g line hh hm hx =>
    intro s hs
    rw [PLp_excl_nil gti cte l g (by simpa using hh) hm hx] at hs
    simp at hs
  | case4 l g line hh hm hx u rest2 ih =>
    intro s hs
    rw [PLp_excl_cons gti cte l u rest2 g (by simpa using hh) hm hx] at hs
    rcases ih s hs with ⟨h1, h2⟩
    exact ⟨h1, fun _ => h2 rfl⟩
  | case5 l rest g line hh hm hx hgn =>
    rcases extractGroupName_isSome line with ⟨grp, hg⟩
    rw [hg] at hgn
    exact absurd hgn (by simp)
  | case6 l g line hh hm hx grp hg inc hi =>
    intro s hs
    rw [PLp_kept_nil gti cte l g (by simpa using hh) hm
      (by simpa using hx) grp hg hi] at hs
    simp at hs
    subst hs
    exact ⟨ne_empty_of_startsWith (by decide) hm, fun _ => hm⟩
  | case7 l g line hh hm hx grp hg inc hi u rest2 ih =>
    intro s hs
    rw [PLp_kept_cons gti cte l u rest2 g (by simpa using hh) hm
      (by simpa using hx) grp hg hi] at hs
    simp at hs
    subst hs
    exact ⟨ne_empty_of_startsWith (by decide) hm, fun _ => hm⟩
  | case8 l g line hh hm hx grp hg inc hi =>
    intro s hs
    rw [PLp_skip_nil gti cte l g (by simpa using hh) hm
      (by simpa using hx) grp hg (by simpa using hi)] at hs
    simp at hs
  | case9 l g line hh hm hx grp hg inc hi u rest2 ih =>
    intro s hs
    have hi' : shouldGroupBeIncluded grp gti = false := by simpa using hi
    rw [PLp_skip_cons gti cte l u rest2 g (by simpa using hh) hm
      (by simpa using hx) grp hg hi'] at hs
    have ih' := ih s
    simp only [show (inc : Bool) = false from hi'] at ih'
    rcases ih' hs with ⟨h1, h2⟩
    exact ⟨h1, fun _ => h2 trivial⟩
  | case10 l rest g line hh hm hc ih =>
    intro s hs
    have hc' : g = true ∧ jsTrim l ≠ "" := by simpa using hc
    rw [PLp_stray_push gti cte l rest g (by simpa using hh) (by simpa using hm)
      hc'.1 hc'.2] at hs
    simp at hs
    subst hs
    refine ⟨hc'.2, fun hgf => ?_⟩
    rw [hc'.1] at hgf
    exact absurd hgf (by simp)
  | case11 l rest g line hh hm hc ih =>
    intro s hs
    have hc' : ¬(g = true ∧ ¬jsTrim l = "") := by simpa using hc
    have hgn : g = false ∨ jsTrim l = "" := by
      by_cases hgb : g = true
      · right
        by_contra hne
        exact hc' ⟨hgb, hne⟩
      · left
        simpa using hgb
    rw [PLp_stray_skip gti cte l rest g (by simpa using hh) (by simpa using hm) hgn] at hs
    exact ih s hs

/-- All emitted lines are newline-free when the input lines are. -/
theorem PLp_nl_free (gti cte : Option (List String)) (ls : List String) (g : Bool)
    (hin : ∀ l ∈ ls, '\n' ∉ l.data) :
    ∀ s ∈ processLinesP gti cte ls g, '\n' ∉ s.data := by
  induction ls, g using processLinesP.induct gti cte with
  | case1 g => simp [processLinesP]
  | case2 l rest g line hh ih =>
    rw [PLp_header gti cte l rest g hh]
    exact ih fun x hx => hin x (List.mem_cons_of_mem l hx)
  | case3 l g line hh hm hx =>
    rw [PLp_excl_nil gti cte l g (by simpa using hh) hm hx]
    simp
  | case4 l g line hh hm hx u rest2 ih =>
    rw [PLp_excl_cons gti cte l u rest2 g (by simpa using hh) hm hx]
    exact ih fun x hx2 =>
      hin x (List.mem_cons_of_mem l (List.mem_cons_of_mem u hx2))
  | case5 l rest g line hh hm hx hgn =>
    rcases extractGroupName_isSome line with ⟨grp, hg⟩
    rw [hg] at hgn
    exact absurd hgn (by simp)
  | case6 l g line hh hm hx grp hg inc hi =>
    rw [PLp_kept_nil gti cte l g (by simpa using hh) hm
      (by simpa using hx) grp hg hi]
    intro s hs
    simp at hs
    subst hs
    exact fun hmem => hin l (List.mem_cons_self l []) (mem_jsTrim hmem)
  | case7 l g line hh hm hx grp hg inc hi u rest2 ih =>
    rw [PLp_kept_cons gti cte l u rest2 g (by simpa using hh) hm
      (by simpa using hx) grp hg hi]
    intro s hs
    rcases List.mem_cons.mp hs with rfl | hs
    · exact fun hmem => hin l (List.mem_cons_self l _) (mem_jsTrim hmem)
    rcases List.mem_cons.mp hs with rfl | hs
    · exact fun hmem =>
        hin u (List.mem_cons_of_mem l (List.mem_cons_self u _)) (mem_jsTrim hmem)
    · have ih' := ih
      simp only [show (inc : Bool) = true from hi] at ih'
      exact ih' (fun x hx2 =>
        hin x (List.mem_cons_of_mem l (List.mem_cons_of_mem u hx2))) s hs
  | case8 l g line hh hm hx grp hg inc hi =>
    rw [PLp_skip_nil gti cte l g (by simpa using hh) hm
      (by simpa using hx) grp hg (by simpa using hi)]
    simp
  | case9 l g line hh hm hx grp hg inc hi u rest2 ih =>
    have hi' : shouldGroupBeIncluded grp gti = false := by simpa using hi
    rw [PLp_skip_cons gti cte l u rest2 g (by simpa using hh) hm
      (by simpa using hx) grp hg hi']
    have ih' := ih
    simp only [show (inc : Bool) = false from hi'] at ih'
    exact ih' fun x hx2 =>
      hin x (List.mem_cons_of_mem l (List.mem_cons_of_mem u hx2))
  | case10 l rest g line hh hm hc ih =>
    have hc' : g = true ∧ jsTrim l ≠ "" := by simpa using hc
    rw [PLp_stray_push gti cte l rest g (by simpa using hh) (by simpa using hm)
      hc'.1 hc'.2]
    intro s hs
    rcases List.mem_cons.mp hs with rfl | hs
    · exact fun hmem => hin l (List.mem_cons_self l _) (mem_jsTrim hmem)
    · exact ih (fun x hx => hin x (List.mem_cons_of_mem l hx)) s hs
  | case11 l rest g line hh hm hc ih =>
    have hc' : ¬(g = true ∧ ¬jsTrim l = "") := by simpa using hc
    have hgn : g = false ∨ jsTrim l = "" := by
      by_cases hgb : g = true
      · right
        by_contra hne
        exact hc' ⟨hgb, hne⟩
      · left
        simpa using hgb
    rw [PLp_stray_skip gti cte l rest g (by simpa using hh) (by simpa using hm) hgn]
    exact ih fun x hx => hin x (List.mem_cons_of_mem l hx)

/-! ### Replaying the filter over its own output -/

theorem getLast?_cons_of_ne_nil {α : Type} (a : α) {l : List α} (hl : l ≠ []) :
    (a :: l).getLast? = l.getLast? := by
  cases l with
  | nil => exact absurd rfl hl
  | cons b bs => exact List.getLast?_cons_cons

/-- A single blank line is dropped by the loop. -/
theorem PLp_empty_line (gti cte : Option (List String)) (h : Bool) :
    processLinesP gti cte [""] h = [] := by
  rw [PLp_stray_skip gti cte "" [] h (by decide) (by decide) (Or.inr (by decide))]
  rfl

theorem PLp_tail_junk (gti cte : Option (List String)) (t : List String)
    (ht : t = [] ∨ t = [""]) (h : Bool) : processLinesP gti cte t h = [] := by
  rcases ht with rfl | rfl
  · rfl
  · exact PLp_empty_line gti cte h

/-- The loop run again on its own output reproduces that output, up to
possibly consuming a trailing blank artifact line as the URL slot of a
final URL-less metadata line (in which case the blank is re-emitted).
The incoming flag must either match the original one or the output must
start with a metadata line (which resets the flag). -/
theorem PLp_replay (gti cte : Option (List String)) (ls : List String) (g : Bool) :
    ∀ t h, (t = [] ∨ t = [""]) →
      (h = g ∨ ∀ s, (processLinesP gti cte ls g).head? = some s →
        jsStartsWith s "#EXTINF" = true) →
      ∃ t', (t' = [] ∨ t' = [""]) ∧
        processLinesP gti cte (processLinesP gti cte ls g ++ t) h =
          processLinesP gti cte ls g ++ t' ∧
        (t' = [""] → t = [""] ∧ ∃ s,
          (processLinesP gti cte ls g).getLast? = some s ∧
          jsStartsWith s "#EXTINF" = true) := by
  induction ls, g using processLinesP.induct gti cte with
  | case1 g =>
    intro t h ht _
    refine ⟨[], Or.inl rfl, ?_, by simp⟩
    rw [show processLinesP gti cte [] g = [] from rfl]
    simpa using PLp_tail_junk gti cte t ht h
  | case2 l rest g line hh ih =>
    intro t h ht hstate
    rw [PLp_header gti cte l rest g hh] at hstate ⊢
    exact ih t h ht hstate
  | case3 l g line hh hm hx =>
    intro t h ht _
    rw [PLp_excl_nil gti cte l g (by simpa using hh) hm hx]
    refine ⟨[], Or.inl rfl, ?_, by simp⟩
    simpa using PLp_tail_junk gti cte t ht h
  | case4 l g line hh hm hx u rest2 ih =>
    intro t h ht _
    rw [PLp_excl_cons gti cte l u rest2 g (by simpa using hh) hm hx]
    exact ih t h ht (Or.inr fun s hs => (PLp_head gti cte rest2 false s hs).2 rfl)
  | case5 l rest g line hh hm hx hgn =>
    rcases extractGroupName_isSome line with ⟨grp, hg⟩
    rw [hg] at hgn
    exact absurd hgn (by simp)
  | case6 l g line hh hm hx grp hg inc hi =>
    intro t h ht _
    rw [PLp_kept_nil gti cte l g (by simpa using hh) hm (by simpa using hx) grp hg hi]
    have hidem := jsTrim_idem l
    have hh2 : jsStartsWith (jsTrim (jsTrim l)) "#EXTM3U" = false := by
      rw [hidem]; simpa using hh
    have hm2 : jsStartsWith (jsTrim (jsTrim l)) "#EXTINF" = true := by
      rw [hidem]; exact hm
    have hx2 : shouldChannelBeExcluded (jsTrim (jsTrim l)) cte = false := by
      rw [hidem]; simpa using hx
    have hg2 : extractGroupName (jsTrim (jsTrim l)) = some grp := by
      rw [hidem]; exact hg
    rcases ht with rfl | rfl
    · refine ⟨[], Or.inl rfl, ?_, by simp⟩
      rw [List.append_nil, PLp_kept_nil gti cte (jsTrim l) h hh2 hm2 hx2 grp hg2 hi,
        hidem]
    · refine ⟨[""], Or.inr rfl, ?_, fun _ => ⟨rfl, jsTrim l, by simp, hm⟩⟩
      rw [List.singleton_append,
        PLp_kept_cons gti cte (jsTrim l) "" [] h hh2 hm2 hx2 grp hg2 hi, hidem]
      rfl
  | case7 l g line hh hm hx grp hg inc hi u rest2 ih =>
    intro t h ht _
    have hi' : shouldGroupBeIncluded grp gti = true := hi
    have ih' := ih
    simp only [show (inc : Bool) = true from hi] at ih'
    rw [PLp_kept_cons gti cte l u rest2 g (by simpa using hh) hm (by simpa using hx)
      grp hg hi']
    have hidem := jsTrim_idem l
    have hh2 : jsStartsWith (jsTrim (jsTrim l)) "#EXTM3U" = false := by
      rw [hidem]; simpa using hh
    have hm2 : jsStartsWith (jsTrim (jsTrim l)) "#EXTINF" = true := by
      rw [hidem]; exact hm
    have hx2 : shouldChannelBeExcluded (jsTrim (jsTrim l)) cte = false := by
      rw [hidem]; simpa using hx
    have hg2 : extractGroupName (jsTrim (jsTrim l)) = some grp := by
      rw [hidem]; exact hg
    rcases ih' t true ht (Or.inl rfl) with ⟨t', ht', heq, hlast⟩
    refine ⟨t', ht', ?_, ?_⟩
    · rw [List.cons_append, List.cons_append,
        PLp_kept_cons gti cte (jsTrim l) (jsTrim u) _ h hh2 hm2 hx2 grp hg2 hi',
        hidem, jsTrim_idem u, heq]
      simp [List.cons_append]
    · intro ht''
      rcases hlast ht'' with ⟨htt, s, hgl, hms⟩
      refine ⟨htt, s, ?_, hms⟩
      have hinner_ne : processLinesP gti cte rest2 true ≠ [] := by
        intro h0
        rw [h0] at hgl
        simp at hgl
      rw [getLast?_cons_of_ne_nil _ (List.cons_ne_nil _ _),
        getLast?_cons_of_ne_nil _ hinner_ne]
      exact hgl
  | case8 l g line hh hm hx grp hg inc hi =>
    intro t h ht _
    rw [PLp_skip_nil gti cte l g (by simpa using hh) hm (by simpa using hx) grp hg
      (by simpa using hi)]
    refine ⟨[], Or.inl rfl, ?_, by simp⟩
    simpa using PLp_tail_junk gti cte t ht h
  | case9 l g line hh hm hx grp hg inc hi u rest2 ih =>
    intro t h ht _
    have hi' : shouldGroupBeIncluded grp gti = false := by simpa using hi
    have ih' := ih
    simp only [show (inc : Bool) = false from hi'] at ih'
    rw [PLp_skip_cons gti cte l u rest2 g (by simpa using hh) hm (by simpa using hx)
      grp hg hi']
    exact ih' t h ht (Or.inr fun s hs => (PLp_head gti cte rest2 false s hs).2 rfl)
  | case10 l rest g line hh hm hc ih =>
    intro t h ht hstate
    have hc' : g = true ∧ jsTrim l ≠ "" := by simpa using hc
    obtain ⟨rfl, hne⟩ := hc'
    rw [PLp_stray_push gti cte l rest true (by simpa using hh) (by simpa using hm)
      rfl hne] at hstate ⊢
    have hh' : h = true := by
      rcases hstate with rfl | hmeta
      · rfl
      · have := hmeta (jsTrim l) rfl
        rw [this] at hm
        exact absurd hm (by simp)
    subst hh'
    have hidem := jsTrim_idem l
    rcases ih t true ht (Or.inl rfl) with ⟨t', ht', heq, hlast⟩
    refine ⟨t', ht', ?_, ?_⟩
    · rw [List.cons_append,
        PLp_stray_push gti cte (jsTrim l) _ true (by rw [hidem]; simpa using hh)
          (by rw [hidem]; simpa using hm) rfl (by rw [hidem]; exact hne),
        hidem, heq]
      simp [List.cons_append]
    · intro ht''
      rcases hlast ht'' with ⟨htt, s, hgl, hms⟩
      refine ⟨htt, s, ?_, hms⟩
      have hinner_ne : processLinesP gti cte rest true ≠ [] := by
        intro h0
        rw [h0] at hgl
        simp at hgl
      rw [getLast?_cons_of_ne_nil _ hinner_ne]
      exact hgl
  | case11 l rest g line hh hm hc ih =>
    intro t h ht hstate
    have hc' : ¬(g = true ∧ ¬jsTrim l = "") := by simpa using hc
    have hgn : g = false ∨ jsTrim l = "" := by
      by_cases hgb : g = true
      · right
        by_contra hne
        exact hc' ⟨hgb, hne⟩
      · left
        simpa using hgb
    rw [PLp_stray_skip gti cte l rest g (by simpa using hh) (by simpa using hm) hgn]
      at hstate ⊢
    exact ih t h ht hstate

/-! ### Assembling the idempotence proof -/

theorem jsSplit_nl_free (x : String) : ∀ s ∈ jsSplit x, '\n' ∉ s.data := by
  intro s hs
  unfold jsSplit at hs
  rcases List.mem_map.mp hs with ⟨pc, hpc, rfl⟩
  exact not_nl_mem_splitChars hpc

theorem convert_of_endsWith {L : List String}
    (h : jsEndsWith (joinNL L) "\n" = true) :
    convertToStringWithLineBreak L = joinNL L := by
  unfold convertToStringWithLineBreak
  rw [if_pos h]

theorem convert_of_not_endsWith {L : List String}
    (h : jsEndsWith (joinNL L) "\n" = false) :
    convertToStringWithLineBreak L = joinNL L ++ "\n" := by
  unfold convertToStringWithLineBreak
  rw [if_neg (by simp [h])]

theorem joinNL_concat_data (ls : List String) (e : String) (hne : ls ≠ []) :
    (joinNL (ls ++ [e])).data = (joinNL ls).data ++ '\n' :: e.data := by
  induction ls with
  | nil => exact absurd rfl hne
  | cons x rest ih =>
    cases rest with
    | nil =>
      show (joinNL [x, e]).data = _
      rw [joinNL_data_cons_cons]
      rfl
    | cons y r =>
      rw [show (x :: y :: r) ++ [e] = x :: ((y :: r) ++ [e]) from rfl]
      rw [show (y :: r) ++ [e] = y :: (r ++ [e]) from rfl]
      rw [joinNL_data_cons_cons, joinNL_data_cons_cons,
        show y :: (r ++ [e]) = (y :: r) ++ [e] from rfl, ih (by simp)]
      simp

/-- The general path, re-run on its own output, reproduces the output. -/
theorem parseP_general_idem (gti cte : Option (List String)) (text : String)
    (hgen : (shouldAllGroupsBeReturned ⟨gti, cte, text⟩ &&
      noChannelsToExclude ⟨gti, cte, text⟩) = false) :
    parseFileAsStringP ⟨gti, cte, parseFileAsStringP ⟨gti, cte, text⟩⟩ =
      parseFileAsStringP ⟨gti, cte, text⟩ := by
  have hgen2 : ∀ y : String, (shouldAllGroupsBeReturned ⟨gti, cte, y⟩ &&
      noChannelsToExclude ⟨gti, cte, y⟩) = false := fun _ => hgen
  set O := processLinesP gti cte (jsSplit text) false with hO
  set L := "#EXTM3U" :: O with hL
  have hLfree : ∀ s ∈ L, '\n' ∉ s.data := by
    intro s hs
    rcases List.mem_cons.mp hs with rfl | hs
    · decide
    · exact PLp_nl_free gti cte (jsSplit text) false (jsSplit_nl_free text) s hs
  have h1 : parseFileAsStringP ⟨gti, cte, text⟩ = convertToStringWithLineBreak L := by
    unfold parseFileAsStringP
    rw [if_neg (by simp [hgen])]
  have hheader : processLinesP gti cte L false = processLinesP gti cte O false := by
    exact PLp_header gti cte "#EXTM3U" O false (by decide)
  have h2 : ∀ y : String, parseFileAsStringP ⟨gti, cte, y⟩ =
      convertToStringWithLineBreak
        ("#EXTM3U" :: processLinesP gti cte (jsSplit y) false) := by
    intro y
    unfold parseFileAsStringP
    rw [if_neg (by simp [hgen2 y])]
  cases hends : jsEndsWith (joinNL L) "\n" with
  | true =>
    have hR : parseFileAsStringP ⟨gti, cte, text⟩ = joinNL L := by
      rw [h1, convert_of_endsWith hends]
    rcases PLp_replay gti cte (jsSplit text) false [] false (Or.inl rfl) (Or.inl rfl)
      with ⟨t', ht', heq, hlast⟩
    have ht'nil : t' = [] := by
      rcases ht' with rfl | rfl
      · rfl
      · exact absurd (hlast rfl).1 (by simp)
    subst ht'nil
    have hOidem : processLinesP gti cte O false = O := by
      have h' : processLinesP gti cte (O ++ []) false = O ++ [] := heq
      simpa using h'
    calc parseFileAsStringP ⟨gti, cte, parseFileAsStringP ⟨gti, cte, text⟩⟩
        = convertToStringWithLineBreak ("#EXTM3U" ::
            processLinesP gti cte (jsSplit (parseFileAsStringP ⟨gti, cte, text⟩)) false) :=
          h2 _
      _ = convertToStringWithLineBreak ("#EXTM3U" ::
            processLinesP gti cte L false) := by rw [hR, jsSplit_joinNL L (by simp [hL]) hLfree]
      _ = convertToStringWithLineBreak ("#EXTM3U" :: O) := by rw [hheader, hOidem]
      _ = parseFileAsStringP ⟨gti, cte, text⟩ := h1.symm
  | false =>
    have hR : parseFileAsStringP ⟨gti, cte, text⟩ = joinNL L ++ "\n" := by
      rw [h1, convert_of_not_endsWith hends]
    rcases PLp_replay gti cte (jsSplit text) false [""] false (Or.inr rfl) (Or.inl rfl)
      with ⟨t', ht', heq, hlast⟩
    have heq' : processLinesP gti cte (O ++ [""]) false = O ++ t' := heq
    have hsplitR : jsSplit (joinNL L ++ "\n") = L ++ [""] := by
      rw [jsSplit_append_nl, jsSplit_joinNL L (by simp [hL]) hLfree]
    have hstep : parseFileAsStringP ⟨gti, cte, parseFileAsStringP ⟨gti, cte, text⟩⟩ =
        convertToStringWithLineBreak ("#EXTM3U" :: (O ++ t')) :=
      calc parseFileAsStringP ⟨gti, cte, parseFileAsStringP ⟨gti, cte, text⟩⟩
          = convertToStringWithLineBreak ("#EXTM3U" ::
              processLinesP gti cte (jsSplit (parseFileAsStringP ⟨gti, cte, text⟩)) false) :=
            h2 _
        _ = convertToStringWithLineBreak ("#EXTM3U" ::
              processLinesP gti cte ("#EXTM3U" :: (O ++ [""])) false) := by
            rw [hR, hsplitR, hL, List.cons_append]
        _ = convertToStringWithLineBreak ("#EXTM3U" ::
              processLinesP gti cte (O ++ [""]) false) := by
            rw [PLp_header gti cte "#EXTM3U" (O ++ [""]) false (by decide)]
        _ = convertToStringWithLineBreak ("#EXTM3U" :: (O ++ t')) := by rw [heq']
    rcases ht' with rfl | rfl
    · rw [hstep, List.append_nil]
      exact h1.symm
    · have hJ2 : (joinNL (L ++ [""])).data = (joinNL L).data ++ ['\n'] := by
        rw [joinNL_concat_data L "" (by simp [hL])]
      have hends2 : jsEndsWith (joinNL (L ++ [""])) "\n" = true := by
        rw [jsEndsWith_nl_iff, hJ2, List.getLast?_concat]
      rw [hstep, show "#EXTM3U" :: (O ++ [""]) = L ++ [""] from by
          rw [hL, List.cons_append],
        convert_of_endsWith hends2, hR]
      apply String.ext
      rw [hJ2, String.data_append]

/-! ### Exactly one trailing newline -/

theorem getLast?_mem' {α : Type} {l : List α} {a : α} (h : l.getLast? = some a) :
    a ∈ l := by
  rcases List.eq_nil_or_concat l with rfl | ⟨l', b, rfl⟩
  · simp at h
  · rw [List.concat_eq_append, List.getLast?_concat] at h
    rw [List.concat_eq_append]
    simp at h
    simp [h]

theorem getLast?_append_right {α : Type} (a : List α) {b : List α} (hb : b ≠ []) :
    (a ++ b).getLast? = b.getLast? := by
  rw [List.getLast?_append]
  rcases List.eq_nil_or_concat b with rfl | ⟨b', c, rfl⟩
  · exact absurd rfl hb
  · rw [List.concat_eq_append, List.getLast?_concat]
    rfl

theorem isSuffixOf_concat_concat (xs ys : List Char) (c : Char) :
    (xs ++ [c]).isSuffixOf (ys ++ [c]) = xs.isSuffixOf ys := by
  unfold List.isSuffixOf
  rw [List.reverse_append, List.reverse_append]
  simp [List.isPrefixOf]

/-- No two adjacent output lines are both empty. -/
def noTwoAdjacentEmpty : List String → Prop
  | [] => True
  | [_] => True
  | a :: b :: rest => ¬(a = "" ∧ b = "") ∧ noTwoAdjacentEmpty (b :: rest)

theorem NAE_cons (b : String) (l : List String) (h : noTwoAdjacentEmpty l)
    (hb : ∀ s, l.head? = some s → ¬(b = "" ∧ s = "")) :
    noTwoAdjacentEmpty (b :: l) := by
  cases l with
  | nil => trivial
  | cons c r => exact ⟨hb c rfl, h⟩

theorem NAE_tail {b : String} {l : List String} (h : noTwoAdjacentEmpty (b :: l)) :
    noTwoAdjacentEmpty l := by
  cases l with
  | nil => trivial
  | cons c r => exact h.2

/-- In a list with no two adjacent empties that ends in an empty line,
the preceding line is nonempty. -/
theorem NAE_concat_last {M : List String} (h : noTwoAdjacentEmpty (M ++ [""]))
    {p : String} (hp : M.getLast? = some p) : p ≠ "" := by
  induction M with
  | nil => simp at hp
  | cons x rest ih =>
    cases rest with
    | nil =>
      simp at hp
      subst hp
      intro hx
      exact h.1 ⟨hx, rfl⟩
    | cons y r =>
      rw [List.getLast?_cons_cons] at hp
      exact ih (NAE_tail h) hp

/-- The loop output has no two adjacent empty lines. -/
theorem PLp_noAdjEmpty (gti cte : Option (List String)) (ls : List String) (g : Bool) :
    noTwoAdjacentEmpty (processLinesP gti cte ls g) := by
  induction ls, g using processLinesP.induct gti cte with
  | case1 g => trivial
  | case2 l rest g line hh ih =>
    rw [PLp_header gti cte l rest g hh]
    exact ih
  | case3 l g line hh hm hx =>
    rw [PLp_excl_nil gti cte l g (by simpa using hh) hm hx]
    trivial
  | case4 l g line hh hm hx u rest2 ih =>
    rw [PLp_excl_cons gti cte l u rest2 g (by simpa using hh) hm hx]
    exact ih
  | case5 l rest g line hh hm hx hgn =>
    rcases extractGroupName_isSome line with ⟨grp, hg⟩
    rw [hg] at hgn
    exact absurd hgn (by simp)
  | case6 l g line hh hm hx grp hg inc hi =>
    rw [PLp_kept_nil gti cte l g (by simpa using hh) hm (by simpa using hx) grp hg hi]
    trivial
  | case7 l g line hh hm hx grp hg inc hi u rest2 ih =>
    have hi' : shouldGroupBeIncluded grp gti = true := hi
    have ih' : noTwoAdjacentEmpty (processLinesP gti cte rest2 true) := by
      simpa [show (inc : Bool) = true from hi] using ih
    rw [PLp_kept_cons gti cte l u rest2 g (by simpa using hh) hm
      (by simpa using hx) grp hg hi']
    refine NAE_cons _ _ (NAE_cons _ _ ih' ?_) ?_
    · intro s hs hcon
      exact (PLp_head gti cte rest2 true s hs).1 hcon.2
    · intro s hs hcon
      exact ne_empty_of_startsWith (by decide) hm hcon.1
  | case8 l g line hh hm hx grp hg inc hi =>
    rw [PLp_skip_nil gti cte l g (by simpa using hh) hm (by simpa using hx) grp hg
      (by simpa using hi)]
    trivial
  | case9 l g line hh hm hx grp hg inc hi u rest2 ih =>
    have hi' : shouldGroupBeIncluded grp gti = false := by simpa using hi
    rw [PLp_skip_cons gti cte l u rest2 g (by simpa using hh) hm
      (by simpa using hx) grp hg hi']
    simpa [show (inc : Bool) = false from hi'] using ih
  | case10 l rest g line hh hm hc ih =>
    have hc' : g = true ∧ jsTrim l ≠ "" := by simpa using hc
    rw [PLp_stray_push gti cte l rest g (by simpa using hh) (by simpa using hm)
      hc'.1 hc'.2]
    exact NAE_cons _ _ ih fun s hs hcon => hc'.2 hcon.1
  | case11 l rest g line hh hm hc ih =>
    have hc' : ¬(g = true ∧ ¬jsTrim l = "") := by simpa using hc
    have hgn : g = false ∨ jsTrim l = "" := by
      by_cases hgb : g = true
      · right
        by_contra hne
        exact hc' ⟨hgb, hne⟩
      · left
        simpa using hgb
    rw [PLp_stray_skip gti cte l rest g (by simpa using hh) (by simpa using hm) hgn]
    exact ih

/-- The last character of a join of newline-free pieces whose final
piece is nonempty is not a newline. -/
theorem joinNL_getLast_ne_nl (M : List String) (hMne : M ≠ [])
    (hfree : ∀ s ∈ M, '\n' ∉ s.data)
    (hlast : ∀ s, M.getLast? = some s → s ≠ "") :
    (joinNL M).data.getLast? ≠ some '\n' := by
  rcases List.eq_nil_or_concat M with rfl | ⟨M', p, rfl⟩
  · exact absurd rfl hMne
  · rw [List.concat_eq_append] at *
    have hp : p ≠ "" := hlast p (List.getLast?_concat M')
    have hpdata : p.data ≠ [] := fun hd => hp (String.ext (by simp [hd]))
    have hpfree : '\n' ∉ p.data := hfree p (by simp)
    cases M' with
    | nil =>
      show (joinNL [p]).data.getLast? ≠ some '\n'
      intro hcon
      exact hpfree (getLast?_mem' hcon)
    | cons x r =>
      rw [joinNL_concat_data (x :: r) p (by simp)]
      rw [getLast?_append_right _ (by simp)]
      rw [getLast?_cons_of_ne_nil _ hpdata]
      intro hcon
      exact hpfree (getLast?_mem' hcon)

/-- The assembled output string ends in exactly one newline. -/
theorem convert_exactly_one_nl (O : List String)
    (hfree : ∀ s ∈ O, '\n' ∉ s.data)
    (hnae : noTwoAdjacentEmpty ("#EXTM3U" :: O)) :
    jsEndsWith (convertToStringWithLineBreak ("#EXTM3U" :: O)) "\n" = true ∧
    jsEndsWith (convertToStringWithLineBreak ("#EXTM3U" :: O)) "\n\n" = false := by
  rcases List.eq_nil_or_concat O with rfl | ⟨O', e, rfl⟩
  · exact (by decide)
  · rw [List.concat_eq_append] at *
    set M : List String := "#EXTM3U" :: O' with hMdef
    have hMne : M ≠ [] := by simp [hMdef]
    have hMfree : ∀ s ∈ M, '\n' ∉ s.data := by
      intro s hs
      rcases List.mem_cons.mp hs with rfl | hs
      · decide
      · exact hfree s (List.mem_append_left _ hs)
    have hefree : '\n' ∉ e.data := hfree e (by simp)
    have hJ : (joinNL (M ++ [e])).data = (joinNL M).data ++ '\n' :: e.data :=
      joinNL_concat_data M e hMne
    by_cases he : e = ""
    · subst he
      have hLM : ("#EXTM3U" : String) :: (O' ++ [""]) = M ++ [""] := by
        simp [hMdef]
      have hlastM : ∀ s, M.getLast? = some s → s ≠ "" := by
        intro s hs
        exact NAE_concat_last (by simpa [hMdef] using hnae) hs
      have hMlast : (joinNL M).data.getLast? ≠ some '\n' :=
        joinNL_getLast_ne_nl M hMne hMfree hlastM
      have hJ' : (joinNL (M ++ [""])).data = (joinNL M).data ++ ['\n'] := by
        rw [hJ]
      have hends : jsEndsWith (joinNL (M ++ [""])) "\n" = true := by
        rw [jsEndsWith_nl_iff, hJ', List.getLast?_concat]
      constructor
      · rw [hLM, convert_of_endsWith hends, hends]
      · rw [hLM, convert_of_endsWith hends]
        unfold jsEndsWith
        rw [show ("\n\n" : String).data = ['\n'] ++ ['\n'] from rfl, hJ',
          isSuffixOf_concat_concat]
        rw [Bool.eq_false_iff]
        intro hcon
        exact hMlast ((isSuffixOf_singleton_iff '\n' (joinNL M).data).mp hcon)
    · have hLM : ("#EXTM3U" : String) :: (O' ++ [e]) = M ++ [e] := by
        simp [hMdef]
      have hedata : e.data ≠ [] := fun hd => he (String.ext (by simp [hd]))
      have hlastJ : (joinNL (M ++ [e])).data.getLast? ≠ some '\n' := by
        rw [hJ, getLast?_append_right _ (by simp),
          getLast?_cons_of_ne_nil _ hedata]
        intro hcon
        exact hefree (getLast?_mem' hcon)
      have hends : jsEndsWith (joinNL (M ++ [e])) "\n" = false := by
        rw [Bool.eq_false_iff]
        intro hcon
        exact hlastJ ((jsEndsWith_nl_iff _).mp hcon)
      have hcv : convertToStringWithLineBreak (M ++ [e]) = joinNL (M ++ [e]) ++ "\n" :=
        convert_of_not_endsWith hends
      constructor
      · rw [hLM, hcv, jsEndsWith_nl_iff, String.data_append,
          show ("\n" : String).data = ['\n'] from rfl, List.getLast?_concat]
      · rw [hLM, hcv]
        unfold jsEndsWith
        rw [String.data_append, show ("\n" : String).data = ['\n'] from rfl,
          show ("\n\n" : String).data = ['\n'] ++ ['\n'] from rfl,
          isSuffixOf_concat_concat]
        rw [Bool.eq_false_iff]
        intro hcon
        exact hlastJ ((isSuffixOf_singleton_iff '\n' (joinNL (M ++ [e])).data).mp hcon)

/-! ### Pairing of metadata and URL lines in the output -/

/-- A metadata line: one the loop classifies via `startsWith("#EXTINF")`. -/
def isMetaLine (s : String) : Bool := jsStartsWith s "#EXTINF"

/-- No metadata line of the output is immediately followed by another
metadata line. -/
def pairingOk : List String → Bool
  | [] => true
  | [_] => true
  | a :: b :: rest => (!(isMetaLine a) || !(isMetaLine b)) && pairingOk (b :: rest)

/-- Input-side hypothesis: no (trimmed) metadata line is immediately
followed by another (trimmed) metadata line. -/
def noAdjacentMeta : List String → Bool
  | [] => true
  | [_] => true
  | a :: b :: rest =>
    !(isMetaLine (jsTrim a) && isMetaLine (jsTrim b)) && noAdjacentMeta (b :: rest)

theorem noAdjacentMeta_tail {b : String} {l : List String}
    (h : noAdjacentMeta (b :: l) = true) : noAdjacentMeta l = true := by
  cases l with
  | nil => rfl
  | cons c r =>
    rw [show noAdjacentMeta (b :: c :: r) =
      (!(isMetaLine (jsTrim b) && isMetaLine (jsTrim c)) && noAdjacentMeta (c :: r))
      from rfl] at h
    exact (Bool.and_eq_true _ _ ▸ h).2

theorem noAdjacentMeta_pair {a b : String} {l : List String}
    (h : noAdjacentMeta (a :: b :: l) = true)
    (ha : isMetaLine (jsTrim a) = true) : isMetaLine (jsTrim b) = false := by
  rw [show noAdjacentMeta (a :: b :: l) =
    (!(isMetaLine (jsTrim a) && isMetaLine (jsTrim b)) && noAdjacentMeta (b :: l))
    from rfl] at h
  have h1 := (Bool.and_eq_true _ _ ▸ h).1
  rw [ha] at h1
  simpa using h1

/-- Trimming a string that starts with a prefix of non-whitespace
characters preserves that prefix: neither the leading nor the trailing
whitespace removal can touch it. -/
theorem jsStartsWith_jsTrim {s p : String} (hp : p.data ≠ [])
    (hpc : ∀ c ∈ p.data, isJsSpace c = false)
    (h : jsStartsWith s p = true) : jsStartsWith (jsTrim s) p = true := by
  unfold jsStartsWith at h ⊢
  rw [ List.isPrefixOf_iff_prefix] at h ⊢
  rcases h with ⟨t, ht⟩
  show p.data <+: trimChars s.data
  unfold trimChars
  rw [← ht]
  have h1 : (p.data ++ t).dropWhile isJsSpace = p.data ++ t := by
    apply dropWhile_eq_self_of_head
    intro c hc
    rcases hpd : p.data with _ | ⟨c0, cs⟩
    · exact absurd hpd hp
    · rw [hpd, List.cons_append, List.head?_cons] at hc
      have hcc : c = c0 := by
        injection hc with hc
        exact hc.symm
      subst hcc
      exact hpc c (by rw [hpd]; exact List.mem_cons_self _ _)
  rw [h1, List.reverse_append, List.dropWhile_append]
  by_cases hcase : (t.reverse.dropWhile isJsSpace).isEmpty = true
  · rw [if_pos hcase]
    have h2 : p.data.reverse.dropWhile isJsSpace = p.data.reverse := by
      apply dropWhile_eq_self_of_head
      intro c hc
      apply hpc
      rcases hr : p.data.reverse with _ | ⟨d, ds⟩
      · rw [hr] at hc
        cases hc
      · rw [hr, List.head?_cons] at hc
        have hcc : c = d := by
          injection hc with hc
          exact hc.symm
        subst hcc
        exact List.mem_reverse.mp (by rw [hr]; exact List.mem_cons_self c ds)
    rw [h2, List.reverse_reverse]
  · rw [if_neg hcase, List.reverse_append, List.reverse_reverse]
    exact ⟨(t.reverse.dropWhile isJsSpace).reverse, rfl⟩

/-- A raw metadata line is still a metadata line after trimming. -/
theorem isMetaLine_jsTrim {a : String} (h : isMetaLine a = true) :
    isMetaLine (jsTrim a) = true :=
  jsStartsWith_jsTrim (by decide) (by decide) h

/-- A line list with no adjacent trimmed metadata lines a fortiori has
no adjacent raw metadata lines. -/
theorem pairingOk_of_noAdjacentMeta (ls : List String)
    (h : noAdjacentMeta ls = true) : pairingOk ls = true := by
  induction ls with
  | nil => rfl
  | cons a rest ih =>
    cases rest with
    | nil => rfl
    | cons b r =>
      have h2 := noAdjacentMeta_tail h
      have hpair : ¬(isMetaLine a = true ∧ isMetaLine b = true) := by
        rintro ⟨ha, hb⟩
        have hfalse := noAdjacentMeta_pair h (isMetaLine_jsTrim ha)
        exact absurd (isMetaLine_jsTrim hb) (by simp [hfalse])
      show ((!(isMetaLine a) || !(isMetaLine b)) && pairingOk (b :: r)) = true
      rw [Bool.and_eq_true]
      refine ⟨?_, ih h2⟩
      by_cases hma : isMetaLine a = true
      · have hb : isMetaLine b = false := by
          by_cases hb' : isMetaLine b = true
          · exact absurd ⟨hma, hb'⟩ hpair
          · simpa using hb'
        simp [hb]
      · simp [show isMetaLine a = false from by simpa using hma]

theorem pairingOk_cons_nonmeta {b : String} {l : List String}
    (hb : isMetaLine b = false) (h : pairingOk l = true) :
    pairingOk (b :: l) = true := by
  cases l with
  | nil => rfl
  | cons c r => simp [pairingOk, hb, h]

theorem pairingOk_cons₂ {a b : String} {r : List String}
    (hb : isMetaLine b = false) (h : pairingOk (b :: r) = true) :
    pairingOk (a :: b :: r) = true := by
  simp [pairingOk, hb, h]

theorem pairingOk_append_nonmeta {e : String} (he : isMetaLine e = false) :
    ∀ {L : List String}, pairingOk L = true → pairingOk (L ++ [e]) = true := by
  intro L
  induction L with
  | nil => intro _; rfl
  | cons x rest ih =>
    cases rest with
    | nil =>
      intro _
      simp [pairingOk, he]
    | cons y r =>
      intro h
      rw [show (x :: y :: r) ++ [e] = x :: ((y :: r) ++ [e]) from rfl]
      simp only [pairingOk, Bool.and_eq_true] at h ⊢
      exact ⟨h.1, ih h.2⟩

/-- Under the no-adjacent-metadata input hypothesis, the loop output
never places two metadata lines next to each other. -/
theorem PLp_pairingOk (gti cte : Option (List String)) (ls : List String) (g : Bool)
    (hadj : noAdjacentMeta ls = true) : pairingOk (processLinesP gti cte ls g) = true := by
  induction ls, g using processLinesP.induct gti cte with
  | case1 g => rfl
  | case2 l rest g line hh ih =>
    rw [PLp_header gti cte l rest g hh]
    exact ih (noAdjacentMeta_tail hadj)
  | case3 l g line hh hm hx =>
    rw [PLp_excl_nil gti cte l g (by simpa using hh) hm hx]
    rfl
  | case4 l g line hh hm hx u rest2 ih =>
    rw [PLp_excl_cons gti cte l u rest2 g (by simpa using hh) hm hx]
    exact ih (noAdjacentMeta_tail (noAdjacentMeta_tail hadj))
  | case5 l rest g line hh hm hx hgn =>
    rcases extractGroupName_isSome line with ⟨grp, hg⟩
    rw [hg] at hgn
    exact absurd hgn (by simp)
  | case6 l g line hh hm hx grp hg inc hi =>
    rw [PLp_kept_nil gti cte l g (by simpa using hh) hm (by simpa using hx) grp hg hi]
    rfl
  | case7 l g line hh hm hx grp hg inc hi u rest2 ih =>
    have hi' : shouldGroupBeIncluded grp gti = true := hi
    have ih' : noAdjacentMeta rest2 = true → pairingOk (processLinesP gti cte rest2 true) = true := by
      simpa [show (inc : Bool) = true from hi] using ih
    rw [PLp_kept_cons gti cte l u rest2 g (by simpa using hh) hm
      (by simpa using hx) grp hg hi']
    have humeta : isMetaLine (jsTrim u) = false := noAdjacentMeta_pair hadj hm
    exact pairingOk_cons₂ humeta
      (pairingOk_cons_nonmeta humeta
        (ih' (noAdjacentMeta_tail (noAdjacentMeta_tail hadj))))
  | case8 l g line hh hm hx grp hg inc hi =>
    rw [PLp_skip_nil gti cte l g (by simpa using hh) hm (by simpa using hx) grp hg
      (by simpa using hi)]
    rfl
  | case9 l g line hh hm hx grp hg inc hi u rest2 ih =>
    have hi' : shouldGroupBeIncluded grp gti = false := by simpa using hi
    rw [PLp_skip_cons gti cte l u rest2 g (by simpa using hh) hm
      (by simpa using hx) grp hg hi']
    have ih' : noAdjacentMeta rest2 = true → pairingOk (processLinesP gti cte rest2 false) = true := by
      simpa [show (inc : Bool) = false from hi'] using ih
    exact ih' (noAdjacentMeta_tail (noAdjacentMeta_tail hadj))
  | case10 l rest g line hh hm hc ih =>
    have hc' : g = true ∧ jsTrim l ≠ "" := by simpa using hc
    rw [PLp_stray_push gti cte l rest g (by simpa using hh) (by simpa using hm)
      hc'.1 hc'.2]
    exact pairingOk_cons_nonmeta (by simpa using hm) (ih (noAdjacentMeta_tail hadj))
  | case11 l rest g line hh hm hc ih =>
    have hc' : ¬(g = true ∧ ¬jsTrim l = "") := by simpa using hc
    have hgn : g = false ∨ jsTrim l = "" := by
      by_cases hgb : g = true
      · right
        by_contra hne
        exact hc' ⟨hgb, hne⟩
      · left
        simpa using hgb
    rw [PLp_stray_skip gti cte l rest g (by simpa using hh) (by simpa using hm) hgn]
    exact ih (noAdjacentMeta_tail hadj)

/-- The lines of a general-path result are the header, the loop output,
and possibly a final blank artifact of the trailing newline. -/
theorem jsSplit_parseP (gti cte : Option (List String)) (text : String)
    (hgen : (shouldAllGroupsBeReturned ⟨gti, cte, text⟩ &&
      noChannelsToExclude ⟨gti, cte, text⟩) = false) :
    jsSplit (parseFileAsStringP ⟨gti, cte, text⟩) =
      "#EXTM3U" :: processLinesP gti cte (jsSplit text) false ∨
    jsSplit (parseFileAsStringP ⟨gti, cte, text⟩) =
      ("#EXTM3U" :: processLinesP gti cte (jsSplit text) false) ++ [""] := by
  set O := processLinesP gti cte (jsSplit text) false with hO
  set L := "#EXTM3U" :: O with hL
  have hLfree : ∀ s ∈ L, '\n' ∉ s.data := by
    intro s hs
    rcases List.mem_cons.mp hs with rfl | hs
    · decide
    · exact PLp_nl_free gti cte (jsSplit text) false (jsSplit_nl_free text) s hs
  have h1 : parseFileAsStringP ⟨gti, cte, text⟩ = convertToStringWithLineBreak L := by
    unfold parseFileAsStringP
    rw [if_neg (by simp [hgen])]
  cases hends : jsEndsWith (joinNL L) "\n" with
  | true =>
    left
    rw [h1, convert_of_endsWith hends, jsSplit_joinNL L (by simp [hL]) hLfree]
  | false =>
    right
    rw [h1, convert_of_not_endsWith hends, jsSplit_append_nl,
      jsSplit_joinNL L (by simp [hL]) hLfree]

/-- The passthrough fast path. -/
theorem parseP_passthrough (gti cte : Option (List String)) (y : String)
    (h : (shouldAllGroupsBeReturned ⟨gti, cte, y⟩ &&
      noChannelsToExclude ⟨gti, cte, y⟩) = true) :
    parseFileAsStringP ⟨gti, cte, y⟩ = y := by
  unfold parseFileAsStringP
  rw [if_pos h]

/-- C4: for every rule set and every input text, `filterM3u` applied
twice with the same rule set equals `filterM3u` applied once:
re-filtering an already-filtered playlist changes nothing. -/
theorem filterM3u_idem (gti cte : Option (List String)) (text out : String)
    (h : filterM3u ⟨gti, cte, text⟩ = .ok out) :
    filterM3u ⟨gti, cte, out⟩ = .ok out := by
  rw [filterM3u_eq_ok] at h ⊢
  have hout : parseFileAsStringP ⟨gti, cte, text⟩ = out := by
    injection h
  subst hout
  cases hgen : (shouldAllGroupsBeReturned ⟨gti, cte, text⟩ &&
      noChannelsToExclude ⟨gti, cte, text⟩) with
  | true =>
    exact congrArg Except.ok
      (parseP_passthrough gti cte (parseFileAsStringP ⟨gti, cte, text⟩) hgen)
  | false =>
    rw [parseP_general_idem gti cte text hgen]

/-! ### The display-name fallback (last comma) -/

theorem takeWhile_append_stop {p : Char → Bool} {m : List Char}
    (hm : ∃ x ∈ m, p x = false) (m' : List Char) :
    (m ++ m').takeWhile p = m.takeWhile p := by
  induction m with
  | nil =>
    rcases hm with ⟨x, hx, _⟩
    simp at hx
  | cons c cs ih =>
    rcases hm with ⟨x, hx, hpx⟩
    rcases List.mem_cons.mp hx with rfl | hx
    · rw [List.cons_append, List.takeWhile_cons, List.takeWhile_cons, hpx]
      simp
    · by_cases hpc : p c
      · rw [List.cons_append, List.takeWhile_cons_of_pos hpc,
          List.takeWhile_cons_of_pos hpc, ih ⟨x, hx, hpx⟩]
      · rw [List.cons_append, List.takeWhile_cons_of_neg hpc,
          List.takeWhile_cons_of_neg hpc]

theorem takeWhile_append_all {p : Char → Bool} {m : List Char}
    (hm : ∀ x ∈ m, p x = true) (m' : List Char) :
    (m ++ m').takeWhile p = m ++ m'.takeWhile p := by
  induction m with
  | nil => simp
  | cons c cs ih =>
    rw [List.cons_append, List.takeWhile_cons_of_pos (hm c (by simp)),
      ih fun x hx => hm x (List.mem_cons_of_mem c hx)]
    rfl

/-- `lastIndexOf(',')` followed by `substring`: the characters after the
last comma are the reverse of the longest comma-free suffix. -/
theorem afterLastComma_eq (l : List Char) :
    afterLastComma l =
      if ',' ∈ l then some ((l.reverse.takeWhile fun c => c ≠ ',').reverse)
      else none := by
  induction l with
  | nil => rfl
  | cons c cs ih =>
    show (match afterLastComma cs with
      | some r => some r
      | none => if c = ',' then some cs else none) = _
    by_cases h1 : ',' ∈ cs
    · rw [ih, if_pos h1, if_pos (List.mem_cons_of_mem c h1)]
      have hstop : ∃ x ∈ cs.reverse, (x ≠ ',' : Bool) = false :=
        ⟨',', List.mem_reverse.mpr h1, by simp⟩
      rw [show (c :: cs).reverse = cs.reverse ++ [c] from by simp,
        takeWhile_append_stop hstop [c]]
    · rw [ih, if_neg h1]
      by_cases hc : c = ','
      · subst hc
        rw [if_pos rfl, if_pos (List.mem_cons_self ',' cs)]
        have hall : ∀ x ∈ cs.reverse, (x ≠ ',' : Bool) = true := by
          intro x hx
          simp only [ne_eq, decide_eq_true_eq]
          intro hxc
          exact h1 (hxc ▸ List.mem_reverse.mp hx)
        rw [show (',' :: cs).reverse = cs.reverse ++ [','] from by simp,
          takeWhile_append_all hall [','],
          show List.takeWhile (fun c => (c ≠ ',' : Bool)) [','] = [] from by simp]
        simp
      · rw [if_neg hc, if_neg (by
          intro hmem
          rcases List.mem_cons.mp hmem with h | h
          · exact hc h.symm
          · exact h1 h)]

/-! ### Claim theorems -/

/-- C1 (counterexample): with the exclusion list omitted (`undefined`)
and the inclusion set omitted, the passthrough fast path is not taken
(`noChannelsToExclude` is `channelsToExclude?.length === 0`, which is
`false` for `undefined`), and the general path does not return the
input unchanged. -/
theorem C1_counterexample :
    filterM3u ⟨none, none, "hello"⟩ = .ok "#EXTM3U\n" ∧
    ("#EXTM3U\n" : String) ≠ "hello" :=
  ⟨(filterM3u_eq_ok _).trans (congrArg Except.ok (by decide)), by decide⟩

/-- C1 (amended): for every input text, `filterM3u` with the inclusion
set empty or omitted and the exclusion list *present and empty* returns
the input text unchanged, byte-identical, for any input including
malformed playlists. -/
theorem C1_amended (gti : Option (List String)) (text : String)
    (hg : gti = none ∨ gti = some []) :
    filterM3u ⟨gti, some [], text⟩ = .ok text := by
  rw [filterM3u_eq_ok]
  refine congrArg Except.ok (parseP_passthrough gti (some []) text ?_)
  rcases hg with rfl | rfl <;> rfl

/-- Witness for C1 (amended) at a concrete malformed input. -/
theorem C1_amended_witness :
    ((none : Option (List String)) = none ∨ (none : Option (List String)) = some []) ∧
    filterM3u ⟨none, some [], "not a playlist\njunk"⟩ = .ok "not a playlist\njunk" :=
  ⟨Or.inl rfl, C1_amended none "not a playlist\njunk" (Or.inl rfl)⟩

/-- C2 (counterexample): a non-blank line that is neither the header,
nor a metadata line, nor consumed as a URL line (here a comment before
the first entry) is dropped, not emitted: stray lines only pass through
while the current group flag is up. -/
theorem C2_counterexample :
    filterM3u ⟨some ["News"], none,
        "#COMMENT hello\n#EXTINF:-1 group-title=\"News\",A\nhttp://x"⟩ =
      .ok "#EXTM3U\n#EXTINF:-1 group-title=\"News\",A\nhttp://x\n" ∧
    jsStartsWith (jsTrim "#COMMENT hello") "#EXTM3U" = false ∧
    jsStartsWith (jsTrim "#COMMENT hello") "#EXTINF" = false ∧
    jsTrim "#COMMENT hello" ≠ "" ∧
    "#COMMENT hello" ∉
      jsSplit "#EXTM3U\n#EXTINF:-1 group-title=\"News\",A\nhttp://x\n" :=
  ⟨(filterM3u_eq_ok _).trans (congrArg Except.ok (by decide)),
    by decide, by decide, by decide, by decide⟩

/-- C2 (amended): a non-blank line reached by the cursor that is neither
the header nor a metadata line is emitted as-is (after trimming) if and
only if the current-group-included flag is up; otherwise it is dropped.
Lines reached while the flag is down (e.g. before any metadata line, or
after a dropped entry) do not pass through. -/
theorem C2_amended (gti cte : Option (List String)) (l : String) (rest : List String)
    (g : Bool)
    (hh : jsStartsWith (jsTrim l) "#EXTM3U" = false)
    (hm : jsStartsWith (jsTrim l) "#EXTINF" = false) :
    processLinesP gti cte (l :: rest) g =
      (if g = true ∧ jsTrim l ≠ "" then [jsTrim l] else []) ++
        processLinesP gti cte rest g := by
  by_cases hc : g = true ∧ jsTrim l ≠ ""
  · rw [if_pos hc, PLp_stray_push gti cte l rest g hh hm hc.1 hc.2]
    rfl
  · rw [if_neg hc]
    have hgn : g = false ∨ jsTrim l = "" := by
      by_cases hgb : g = true
      · right
        by_contra hne
        exact hc ⟨hgb, hne⟩
      · left
        simpa using hgb
    rw [PLp_stray_skip gti cte l rest g hh hm hgn]
    rfl

/-- Witness for C2 (amended): a comment line with the flag up passes
through; the same line with the flag down is dropped. -/
theorem C2_amended_witness :
    processLinesP (some ["News"]) none ["#COMMENT hello"] true =
      (if true = true ∧ jsTrim "#COMMENT hello" ≠ ""
        then [jsTrim "#COMMENT hello"] else []) ++
        processLinesP (some ["News"]) none [] true :=
  C2_amended (some ["News"]) none "#COMMENT hello" [] true (by decide) (by decide)

/-- C3 (counterexample): when a metadata line is directly followed by
another metadata line, the second is pushed blindly as the first one's
URL slot, so the output contains a metadata line immediately followed by
another metadata line — the pairing property fails on such inputs. -/
theorem C3_counterexample :
    filterM3u ⟨some ["News"], none,
        "#EXTINF:-1 group-title=\"News\",A\n#EXTINF:-1 group-title=\"News\",B\nhttp://x"⟩ =
      .ok "#EXTM3U\n#EXTINF:-1 group-title=\"News\",A\n#EXTINF:-1 group-title=\"News\",B\nhttp://x\n" ∧
    pairingOk (jsSplit
      "#EXTM3U\n#EXTINF:-1 group-title=\"News\",A\n#EXTINF:-1 group-title=\"News\",B\nhttp://x\n") = false :=
  ⟨(filterM3u_eq_ok _).trans (congrArg Except.ok (by decide)), by decide⟩

/-- C3 (amended): for every rule set and every input in which no
(trimmed) metadata line is immediately followed by another (trimmed)
metadata line, every metadata line in the output of `filterM3u` is
immediately followed by a line that is not itself a metadata line,
except possibly at end-of-output. -/
theorem C3_amended (gti cte : Option (List String)) (text s : String)
    (hadj : noAdjacentMeta (jsSplit text) = true)
    (hs : filterM3u ⟨gti, cte, text⟩ = .ok s) :
    pairingOk (jsSplit s) = true := by
  rw [filterM3u_eq_ok] at hs
  have hs' : parseFileAsStringP ⟨gti, cte, text⟩ = s := by injection hs
  subst hs'
  cases hgen : (shouldAllGroupsBeReturned ⟨gti, cte, text⟩ &&
      noChannelsToExclude ⟨gti, cte, text⟩) with
  | true =>
    rw [parseP_passthrough gti cte text hgen]
    exact pairingOk_of_noAdjacentMeta _ hadj
  | false =>
    rcases jsSplit_parseP gti cte text hgen with h | h <;> rw [h]
    · exact pairingOk_cons_nonmeta (by decide)
        (PLp_pairingOk gti cte (jsSplit text) false hadj)
    · exact pairingOk_append_nonmeta (by decide)
        (pairingOk_cons_nonmeta (by decide)
          (PLp_pairingOk gti cte (jsSplit text) false hadj))

/-- Witness for C3 (amended) at a concrete well-paired input. -/
theorem C3_amended_witness :
    noAdjacentMeta (jsSplit "#EXTM3U\n#EXTINF:-1 group-title=\"News\",A\nhttp://a\n") = true ∧
    pairingOk (jsSplit "#EXTM3U\n#EXTINF:-1 group-title=\"News\",A\nhttp://a\n") = true :=
  ⟨by decide,
    C3_amended (some ["News"]) none
      "#EXTM3U\n#EXTINF:-1 group-title=\"News\",A\nhttp://a\n"
      "#EXTM3U\n#EXTINF:-1 group-title=\"News\",A\nhttp://a\n"
      (by decide)
      ((filterM3u_eq_ok _).trans (congrArg Except.ok (by decide)))⟩

/-- Witness for C4 at the specification's end-to-end example. -/
theorem C4_witness :
    filterM3u ⟨some ["News"], none,
        "#EXTM3U\n#EXTINF:-1 tvg-name=\"Channel A\" group-title=\"News\",Channel A\nhttp://example.com/a\n"⟩ =
      .ok "#EXTM3U\n#EXTINF:-1 tvg-name=\"Channel A\" group-title=\"News\",Channel A\nhttp://example.com/a\n" :=
  filterM3u_idem (some ["News"]) none
    "#EXTM3U\n#EXTINF:-1 tvg-name=\"Channel A\" group-title=\"News\",Channel A\nhttp://example.com/a\n#EXTINF:-1 tvg-name=\"Channel B\" group-title=\"Sports\",Channel B\nhttp://example.com/b\n"
    "#EXTM3U\n#EXTINF:-1 tvg-name=\"Channel A\" group-title=\"News\",Channel A\nhttp://example.com/a\n"
    ((filterM3u_eq_ok _).trans (congrArg Except.ok (by decide)))

/-- C5: when no `tvg-name` attribute matches (double-quoted,
single-quoted, unquoted, in that order), the display name is the
trimmed free-text segment after the last comma of the line, and absent
(`null`) when the line has no comma. -/
theorem C5_display_name_fallback (line : String)
    (h1 : extractDoubleQuoted "tvg-name" line = none)
    (h2 : extractSingleQuoted "tvg-name" line = none)
    (h3 : extractUnquoted "tvg-name" line = none) :
    channelNameOf line =
      if ',' ∈ line.data
      then some (jsTrim ⟨(line.data.reverse.takeWhile fun c => c ≠ ',').reverse⟩)
      else none := by
  unfold channelNameOf
  rw [h1, h2, h3]
  rw [show jsOr (jsOr (jsOr none none) none) (extractChannelNameFromTitle line) =
    extractChannelNameFromTitle line from rfl]
  unfold extractChannelNameFromTitle
  rw [afterLastComma_eq]
  by_cases hc : ',' ∈ line.data
  · rw [if_pos hc, if_pos hc]
    rfl
  · rw [if_neg hc, if_neg hc]
    rfl

/-- Witness for C5 at a concrete attribute-free metadata line. -/
theorem C5_witness :
    extractDoubleQuoted "tvg-name" "#EXTINF:-1,  My Channel " = none ∧
    extractSingleQuoted "tvg-name" "#EXTINF:-1,  My Channel " = none ∧
    extractUnquoted "tvg-name" "#EXTINF:-1,  My Channel " = none ∧
    channelNameOf "#EXTINF:-1,  My Channel " =
      (if ',' ∈ ("#EXTINF:-1,  My Channel " : String).data
       then some (jsTrim ⟨(("#EXTINF:-1,  My Channel " : String).data.reverse.takeWhile
         fun c => c ≠ ',').reverse⟩)
       else none) :=
  ⟨by decide, by decide, by decide,
    C5_display_name_fallback "#EXTINF:-1,  My Channel "
      (by decide) (by decide) (by decide)⟩

/-- C6: for a metadata line, a non-empty exclusion list and a resolved
(non-empty) display name whose lower-casing contains some lower-cased
exclusion entry as a substring, the loop emits neither the metadata
line nor the following line and advances past both — for every
inclusion set, so the exclusion decision precedes the inclusion
check. -/
theorem C6_exclusion_first (gti : Option (List String)) (kws : List String)
    (l : String) (rest : List String) (g : Bool)
    (hm : jsStartsWith (jsTrim l) "#EXTINF" = true)
    (hk : kws ≠ [])
    (name : String) (hname : channelNameOf (jsTrim l) = some name) (hnne : name ≠ "")
    (k : String) (hkmem : k ∈ kws)
    (hsub : jsIncludes (jsToLower name) (jsToLower k) = true) :
    processLinesP gti (some kws) (l :: rest) g =
      processLinesP gti (some kws) (rest.drop 1) false := by
  have hkE : kws.isEmpty = false := by simpa using hk
  have hx : shouldChannelBeExcluded (jsTrim l) (some kws) = true := by
    simp only [shouldChannelBeExcluded, hkE, hname]
    rw [if_neg (by simp), if_neg (by simpa using hnne), List.any_eq_true]
    exact ⟨k, hkmem, hsub⟩
  have hh := not_header_of_meta hm
  cases rest with
  | nil =>
    rw [PLp_excl_nil gti (some kws) l g hh hm hx]
    rfl
  | cons u rest2 =>
    rw [PLp_excl_cons gti (some kws) l u rest2 g hh hm hx]
    rfl

/-- Witness for C6: the `"ESPN HD"` / `["espn"]` example of the spec,
with an inclusion set that would otherwise keep the entry. -/
theorem C6_witness :
    jsStartsWith (jsTrim "#EXTINF:-1 tvg-name=\"ESPN HD\" group-title=\"Sports\",ESPN HD") "#EXTINF" = true ∧
    (["espn"] : List String) ≠ [] ∧
    channelNameOf (jsTrim "#EXTINF:-1 tvg-name=\"ESPN HD\" group-title=\"Sports\",ESPN HD") = some "ESPN HD" ∧
    ("ESPN HD" : String) ≠ "" ∧
    ("espn" : String) ∈ (["espn"] : List String) ∧
    jsIncludes (jsToLower "ESPN HD") (jsToLower "espn") = true ∧
    processLinesP (some ["Sports"]) (some ["espn"])
        ["#EXTINF:-1 tvg-name=\"ESPN HD\" group-title=\"Sports\",ESPN HD", "http://e", "#NEXT"] false =
      processLinesP (some ["Sports"]) (some ["espn"]) ["#NEXT"] false :=
  ⟨by decide, by decide, by decide, by decide, by decide, by decide,
    C6_exclusion_first (some ["Sports"]) ["espn"]
      "#EXTINF:-1 tvg-name=\"ESPN HD\" group-title=\"Sports\",ESPN HD"
      ["http://e", "#NEXT"] false (by decide) (by decide)
      "ESPN HD" (by decide) (by decide) "espn" (by decide) (by decide)⟩

/-- C7: a non-excluded entry is kept iff the inclusion set is empty (or
absent), or its category is non-empty and an exact, case-sensitive
member of the inclusion set; in particular category `"Sports"` is kept
under `{"Sports"}` and dropped under `{"sports"}`. -/
theorem C7_inclusion_exact (group : String) (incl : Option (List String)) :
    (shouldGroupBeIncluded group incl = true ↔
      ((∀ ls, incl = some ls → ls = []) ∨
        (group ≠ "" ∧ ∃ ls, incl = some ls ∧ group ∈ ls))) ∧
    shouldGroupBeIncluded "Sports" (some ["Sports"]) = true ∧
    shouldGroupBeIncluded "Sports" (some ["sports"]) = false := by
  refine ⟨?_, by decide, by decide⟩
  cases incl with
  | none =>
    constructor
    · intro _
      exact Or.inl fun ls h => by cases h
    · intro _
      rfl
  | some ls =>
    constructor
    · intro h
      by_cases hls : ls = []
      · exact Or.inl fun ls' h' => by cases h'; exact hls
      · right
        have h' : (if ls.isEmpty = true then true
            else if (group == "") = true then false else ls.contains group) = true := h
        rw [if_neg (by simpa using hls)] at h'
        by_cases hgrp : group = ""
        · rw [if_pos (by simp [hgrp])] at h'
          exact absurd h' (by simp)
        · rw [if_neg (by simpa using hgrp)] at h'
          exact ⟨hgrp, ls, rfl, by simpa using h'⟩
    · intro h
      rcases h with h | ⟨hgrp, ls', hls', hmem⟩
      · have hls : ls = [] := h ls rfl
        subst hls
        rfl
      · injection hls' with hee
        subst hee
        show (if ls.isEmpty = true then true
          else if (group == "") = true then false else ls.contains group) = true
        by_cases hlsE : ls.isEmpty
        · rw [if_pos hlsE]
        · rw [if_neg hlsE, if_neg (by simpa using hgrp)]
          simpa using hmem

/-- C8 (counterexample): an input whose final line is a metadata line
with no URL line after it, but whose previous line is also a metadata
line: the final line is consumed as the previous entry's URL slot, so
it is *not* subjected to the inclusion decision — it appears in the
output although its category is not in the inclusion set. -/
theorem C8_counterexample :
    filterM3u ⟨some ["News"], none,
        "#EXTINF:-1 group-title=\"News\",A\n#EXTINF:-1 group-title=\"Sports\",B"⟩ =
      .ok "#EXTM3U\n#EXTINF:-1 group-title=\"News\",A\n#EXTINF:-1 group-title=\"Sports\",B\n" ∧
    jsStartsWith (jsTrim "#EXTINF:-1 group-title=\"Sports\",B") "#EXTINF" = true ∧
    extractGroupName (jsTrim "#EXTINF:-1 group-title=\"Sports\",B") = some "Sports" ∧
    shouldGroupBeIncluded "Sports" (some ["News"]) = false ∧
    "#EXTINF:-1 group-title=\"Sports\",B" ∈
      jsSplit "#EXTM3U\n#EXTINF:-1 group-title=\"News\",A\n#EXTINF:-1 group-title=\"Sports\",B\n" :=
  ⟨(filterM3u_eq_ok _).trans (congrArg Except.ok (by decide)),
    by decide, by decide, by decide, by decide⟩

/-- C8 (amended): when the line cursor reaches a final metadata line
with no following line, the loop does not read past the end: the line
is still subjected to the exclusion and inclusion decisions, and it is
emitted alone (nothing after it) iff it is kept, and omitted
otherwise. -/
theorem C8_amended (gti cte : Option (List String)) (m : String) (g : Bool)
    (hm : jsStartsWith (jsTrim m) "#EXTINF" = true) :
    processLinesP gti cte [m] g =
      if shouldChannelBeExcluded (jsTrim m) cte = true then []
      else if shouldGroupBeIncluded ((extractGroupName (jsTrim m)).getD "Unknown") gti = true
        then [jsTrim m]
      else [] := by
  have hh := not_header_of_meta hm
  rcases extractGroupName_isSome (jsTrim m) with ⟨grp, hg⟩
  by_cases hx : shouldChannelBeExcluded (jsTrim m) cte = true
  · rw [if_pos hx, PLp_excl_nil gti cte m g hh hm hx]
  · have hx' : shouldChannelBeExcluded (jsTrim m) cte = false := by simpa using hx
    rw [if_neg hx, hg]
    by_cases hi : shouldGroupBeIncluded grp gti = true
    · rw [if_pos (by simpa using hi), PLp_kept_nil gti cte m g hh hm hx' grp hg hi]
    · have hi' : shouldGroupBeIncluded grp gti = false := by simpa using hi
      rw [if_neg (by simpa using hi'), PLp_skip_nil gti cte m g hh hm hx' grp hg hi']

/-- Witness for C8 (amended) at a concrete kept trailing metadata line. -/
theorem C8_amended_witness :
    jsStartsWith (jsTrim "#EXTINF:-1 group-title=\"News\",A") "#EXTINF" = true ∧
    processLinesP (some ["News"]) none ["#EXTINF:-1 group-title=\"News\",A"] false =
      (if shouldChannelBeExcluded (jsTrim "#EXTINF:-1 group-title=\"News\",A") none = true then []
       else if shouldGroupBeIncluded
          ((extractGroupName (jsTrim "#EXTINF:-1 group-title=\"News\",A")).getD "Unknown")
          (some ["News"]) = true
        then [jsTrim "#EXTINF:-1 group-title=\"News\",A"]
       else []) :=
  ⟨by decide,
    C8_amended (some ["News"]) none "#EXTINF:-1 group-title=\"News\",A" false (by decide)⟩

/-- C9: for every input text and every rule set on the general path, the
output ends in exactly one trailing newline (it ends with `"\n"` and
not with `"\n\n"`), whether or not the input had a final newline. -/
theorem C9_trailing_newline (gti cte : Option (List String)) (text : String)
    (hgen : (shouldAllGroupsBeReturned ⟨gti, cte, text⟩ &&
      noChannelsToExclude ⟨gti, cte, text⟩) = false) :
    ∃ s, filterM3u ⟨gti, cte, text⟩ = .ok s ∧
      jsEndsWith s "\n" = true ∧ jsEndsWith s "\n\n" = false := by
  refine ⟨parseFileAsStringP ⟨gti, cte, text⟩, filterM3u_eq_ok _, ?_⟩
  have h1 : parseFileAsStringP ⟨gti, cte, text⟩ =
      convertToStringWithLineBreak
        ("#EXTM3U" :: processLinesP gti cte (jsSplit text) false) := by
    unfold parseFileAsStringP
    rw [if_neg (by simp [hgen])]
  rw [h1]
  apply convert_exactly_one_nl
  · exact PLp_nl_free gti cte (jsSplit text) false (jsSplit_nl_free text)
  · refine NAE_cons _ _ (PLp_noAdjEmpty gti cte (jsSplit text) false) ?_
    intro s hs hcon
    exact absurd hcon.1 (by decide)

/-- Witness for C9 at a concrete input without a final newline. -/
theorem C9_witness :
    (shouldAllGroupsBeReturned ⟨some ["News"], none, "no final newline"⟩ &&
      noChannelsToExclude ⟨some ["News"], none, "no final newline"⟩) = false ∧
    ∃ s, filterM3u ⟨some ["News"], none, "no final newline"⟩ = .ok s ∧
      jsEndsWith s "\n" = true ∧ jsEndsWith s "\n\n" = false :=
  ⟨by decide, C9_trailing_newline (some ["News"]) none "no final newline" (by decide)⟩

/-- C10: `extractGroupName` always produces a value (the chain ends in
the `"Unknown"` sentinel), so the `Group null` throw branch of the
filter loop is unreachable: `filterM3u` returns a value for every
input. -/
theorem C10_no_throw (line : String) (options : FilterOptions) :
    (extractGroupName line).isSome = true ∧
    filterM3u options = .ok (parseFileAsStringP options) := by
  constructor
  · rcases extractGroupName_isSome line with ⟨g, hg⟩
    rw [hg]
    rfl
  · exact filterM3u_eq_ok options

end M3U
